import Mathlib

/-!
Verification of the logwrap pretty-printing core (`pretty_repr` / `pretty_str`).

The repository ships the formatter tables (`src/logwrap/_formatters.py`) and the
tests; the recursive processor itself is not part of the sources, so it is
modelled from the specification (each such definition is marked
`Modelled from the spec:`).  The formatter tables are translated directly from
`_formatters.py`.
-/

namespace Logwrap

/-- Rendering mode: `precise` is the repr-like mode, `display` the str-like mode. -/
inductive Mode where
  | precise
  | display
deriving DecidableEq

/-- The string of `n` spaces produced by the `"{spc:<{indent}}"` format prefix. -/
def spc (n : Nat) : String := String.mk (List.replicate n ' ')

/-- Concatenation of a list of fragments (Python `''.join`). -/
def joinStr : List String → String
  | [] => ""
  | s :: tl => s ++ joinStr tl

/-- Join a list of fragments with a separator (Python `sep.join`). -/
def joinSep (sep : String) : List String → String
  | [] => ""
  | [s] => s
  | s :: tl => s ++ sep ++ joinSep sep tl

/-- Number of newline characters in a fragment. -/
def countNl (s : String) : Nat := s.data.count '\n'

/-- Whether the fragment contains a newline. -/
def hasNl (s : String) : Bool := s.data.any (fun c => c == '\n')

/-- Length of the run of spaces at the head of a character list. -/
def countSpaces : List Char → Nat
  | [] => 0
  | c :: tl => if c = ' ' then countSpaces tl + 1 else 0

/-- Drop the leading newline characters of a character list. -/
def dropNls : List Char → List Char
  | [] => []
  | c :: tl => if c = '\n' then dropNls tl else c :: tl

/-- Column width of the left margin on the first content line of a fragment
(leading newlines are skipped, then spaces are counted). -/
def firstLineIndent (s : String) : Nat := countSpaces (dropNls s.data)

/-- A text neither starts with a space nor with a newline (used to pin down the
exact left margin of a rendered fragment). -/
def headOkB (s : String) : Bool :=
  match s.data with
  | [] => true
  | c :: _ => !(c = ' ' || c = '\n')

/-- Decimal digit character. -/
def digitChar (n : Nat) : Char := Char.ofNat (48 + n % 10)

/-- Fueled accumulation of the decimal digits of a natural number. -/
def natDigitsF : Nat → Nat → List Char
  | 0, _ => []
  | f+1, n => if n = 0 then [] else natDigitsF f (n / 10) ++ [digitChar n]

/-- Decimal rendering of a natural number (Python `repr` of a non-negative int). -/
def natRepr (n : Nat) : String := if n = 0 then "0" else String.mk (natDigitsF (n + 1) n)

/-- Python `repr` of an int. -/
def intRepr : Int → String
  | .ofNat m => natRepr m
  | .negSucc m => "-" ++ natRepr (m + 1)

/-- Lower-case hexadecimal digit. -/
def hexDigit (n : Nat) : Char := if n < 10 then Char.ofNat (48 + n) else Char.ofNat (87 + n)

/-- The `backslashreplace` escape of a byte: a backslash, `x`, and two hex digits. -/
def escByte (b : Nat) : List Char := ['\\', 'x', hexDigit (b / 16 % 16), hexDigit (b % 16)]

/-- A byte is a UTF-8 continuation byte. -/
def contOk (b : Nat) : Bool := decide (128 ≤ b) && decide (b < 192)

/-- Payload bits of a continuation byte. -/
def contVal (b : Nat) : Nat := b % 64

/-- Fueled UTF-8 decoding with the `backslashreplace` error handler: valid
sequences become the decoded code point, every byte of an invalid sequence is
replaced by its `\xNN` escape.  Models Python's
`bytes.decode('utf-8', errors='backslashreplace')`. -/
def decodeF : Nat → List Nat → List Char
  | 0, _ => []
  | _+1, [] => []
  | f+1, b :: tl =>
    if b < 128 then Char.ofNat b :: decodeF f tl
    else if b < 194 then escByte b ++ decodeF f tl
    else if b < 224 then
      match tl with
      | c1 :: tl2 =>
        if contOk c1 then Char.ofNat ((b % 32) * 64 + contVal c1) :: decodeF f tl2
        else escByte b ++ decodeF f tl
      | [] => escByte b
    else if b < 240 then
      match tl with
      | c1 :: c2 :: tl2 =>
        let lo1 : Nat := if b = 224 then 160 else 128
        let hi1 : Nat := if b = 237 then 159 else 191
        if decide (lo1 ≤ c1) && decide (c1 ≤ hi1) && contOk c2 then
          Char.ofNat ((b % 16) * 4096 + contVal c1 * 64 + contVal c2) :: decodeF f tl2
        else escByte b ++ decodeF f tl
      | _ => escByte b ++ decodeF f tl
    else if b < 245 then
      match tl with
      | c1 :: c2 :: c3 :: tl2 =>
        let lo1 : Nat := if b = 240 then 144 else 128
        let hi1 : Nat := if b = 244 then 143 else 191
        if decide (lo1 ≤ c1) && decide (c1 ≤ hi1) && contOk c2 && contOk c3 then
          Char.ofNat ((b % 8) * 262144 + contVal c1 * 4096 + contVal c2 * 64 + contVal c3)
            :: decodeF f tl2
        else escByte b ++ decodeF f tl
      | _ => escByte b ++ decodeF f tl
    else escByte b ++ decodeF f tl

/-- UTF-8 decoding with lossy backslash escapes, as used by `_strings_repr` and
`_strings_str` for binary strings. -/
def decodeB (bs : List Nat) : String := String.mk (decodeF bs.length bs)

/-- The universe of Python values rendered by the engine.  A formal parameter of
a callable is a tuple `(stars, name, annotation-text, value)` where `stars`
counts the variadic asterisks and `value` is the default or bound value, if
any.  `pcustom s` models a value whose type implements the custom-override
capability by delegating the text `s` back through the processor's
`process_element` callback (the shape exercised by `test_008_magic_override`);
`pobj` models a generic object of no recognized category, carrying its `repr`
and `str` texts. -/
inductive PyVal where
  | pint (n : Int)
  | pbool (b : Bool)
  | pnone
  | pstr (s : String)
  | pbytes (bs : List Nat)
  | plist (xs : List PyVal)
  | ptuple (xs : List PyVal)
  | pdict (es : List (PyVal × PyVal))
  | pset (xs : List PyVal)
  | pcallable (reprText strText : String)
      (params : List (Nat × String × Option String × Option PyVal)) (ret : Option String)
  | pcustom (s : String)
  | pobj (reprText strText : String)

/-- A formal parameter: variadic star count, name, annotation text, default or
bound value. -/
abbrev PParam := Nat × String × Option String × Option PyVal

mutual

/-- Model of Python's `repr` builtin on the embedded values (strings are
modelled without escaping, which is exact for strings free of quotes, backslashes
and control characters). -/
def reprPy : PyVal → String
  | .pint n => intRepr n
  | .pbool b => if b then "True" else "False"
  | .pnone => "None"
  | .pstr s => "\x27" ++ s ++ "\x27"
  | .pbytes bs => "b\x27" ++ decodeB bs ++ "\x27"
  | .plist xs => "[" ++ joinSep ", " (reprPyList xs) ++ "]"
  | .ptuple xs =>
      if xs.length = 1 then "(" ++ joinSep ", " (reprPyList xs) ++ ",)"
      else "(" ++ joinSep ", " (reprPyList xs) ++ ")"
  | .pdict es => "\x7b" ++ joinSep ", " (reprPyEntries es) ++ "\x7d"
  | .pset xs =>
      if xs.isEmpty then "set()"
      else "\x7b" ++ joinSep ", " (reprPyList xs) ++ "\x7d"
  | .pcallable r _ _ _ => r
  | .pcustom _ => "<object>"
  | .pobj r _ => r

/-- The `repr` texts of the elements of a list of values. -/
def reprPyList : List PyVal → List String
  | [] => []
  | v :: tl => reprPy v :: reprPyList tl

/-- The `key: value` repr texts of the entries of a dict. -/
def reprPyEntries : List (PyVal × PyVal) → List String
  | [] => []
  | (k, v) :: tl => (reprPy k ++ ": " ++ reprPy v) :: reprPyEntries tl

end

/-- Python's `str` on an embedded value: the display text for strings and
objects, and the `repr` rendering for containers and the remaining scalars. -/
def strPy (v : PyVal) : String :=
  match v with
  | .pstr s => s
  | .pobj _ t => t
  | .pcallable _ t _ _ => t
  | w => reprPy w

/-- Key text used by the dict templates: `{key!r}` in precise mode, `{key!s}`
in display mode. -/
def keyText (mode : Mode) (v : PyVal) : String :=
  match mode with
  | .precise => reprPy v
  | .display => strPy v

/-- Mode-specific conversion of a scalar value (`{val!r}` versus `{val!s}`). -/
def leafText (mode : Mode) (v : PyVal) : String :=
  match mode with
  | .precise => reprPy v
  | .display => strPy v

/-- s_repr_formatters default entry: the template `"{spc:<{indent}}{val!r}"`. -/
def sReprDefaultFmt (indent : Nat) (v : PyVal) : String := spc indent ++ reprPy v

/-- s_str_formatters default entry: the template `"{spc:<{indent}}{val!s}"`. -/
def sStrDefaultFmt (indent : Nat) (v : PyVal) : String := spc indent ++ strPy v

/-- The `_strings_repr` formatter: binary strings are decoded as UTF-8 with the
`backslashreplace` fallback and wrapped `b'''…'''`; text strings are wrapped
`u'''…'''`; everything is preceded by the indent margin. -/
def stringsRepr (indent : Nat) (v : PyVal) : String :=
  match v with
  | .pbytes bs => spc indent ++ "b\x27\x27\x27" ++ decodeB bs ++ "\x27\x27\x27"
  | .pstr s => spc indent ++ "u\x27\x27\x27" ++ s ++ "\x27\x27\x27"
  | _ => ""

/-- The `_strings_str` formatter: binary strings are decoded as UTF-8 with the
`backslashreplace` fallback; the text is emitted plain after the indent margin. -/
def stringsStr (indent : Nat) (v : PyVal) : String :=
  match v with
  | .pbytes bs => spc indent ++ decodeB bs
  | .pstr s => spc indent ++ s
  | _ => ""

/-- The `_set_repr` formatter: `set(…)` with the elements' reprs joined by
the separator `" ,"`. -/
def setRepr (indent : Nat) (xs : List PyVal) : String :=
  spc indent ++ "set(" ++ joinSep " ," (reprPyList xs) ++ ")"

/-- The `_set_str` formatter: `set(…)` with the elements' str texts joined by
the separator `" ,"`. -/
def setStr (indent : Nat) (xs : List PyVal) : String :=
  spc indent ++ "set(" ++ joinSep " ," (xs.map strPy) ++ ")"

/-- Python's left-aligned minimum-width string padding, as performed by the
format spec `{key!r:{size}}`: the text followed by spaces up to `size` columns. -/
def padKey (s : String) (size : Nat) : String := s ++ spc (size - s.length)

/-- c_repr_formatters dict entry: `"\n{spc:<{indent}}{key!r:{size}}: {val},"`. -/
def cReprDictFmt (indent size : Nat) (k : PyVal) (val : String) : String :=
  "\n" ++ spc indent ++ padKey (reprPy k) size ++ ": " ++ val ++ ","

/-- c_str_formatters dict entry: `"\n{spc:<{indent}}{key!s:{size}}: {val},"`. -/
def cStrDictFmt (indent size : Nat) (k : PyVal) (val : String) : String :=
  "\n" ++ spc indent ++ padKey (strPy k) size ++ ": " ++ val ++ ","

/-- c_repr_formatters callable entry:
`"\n{spc:<{indent}}<{obj!r} with interface ({args})>"`. -/
def cReprCallableFmt (indent : Nat) (objRepr args : String) : String :=
  "\n" ++ spc indent ++ "<" ++ objRepr ++ " with interface (" ++ args ++ ")>"

/-- c_str_formatters callable entry:
`"\n{spc:<{indent}}<{obj!s} with interface ({args})>"`. -/
def cStrCallableFmt (indent : Nat) (objStr args : String) : String :=
  "\n" ++ spc indent ++ "<" ++ objStr ++ " with interface (" ++ args ++ ")>"

/-- c_repr_formatters func_arg entry: `"\n{spc:<{indent}}{key},"`. -/
def cReprFuncArgFmt (indent : Nat) (key : String) : String :=
  "\n" ++ spc indent ++ key ++ ","

/-- c_str_formatters func_arg entry: `"\n{spc:<{indent}}{key},"`. -/
def cStrFuncArgFmt (indent : Nat) (key : String) : String :=
  "\n" ++ spc indent ++ key ++ ","

/-- c_repr_formatters func_def_arg entry: `"\n{spc:<{indent}}{key}={val},"`. -/
def cReprFuncDefArgFmt (indent : Nat) (key val : String) : String :=
  "\n" ++ spc indent ++ key ++ "=" ++ val ++ ","

/-- c_str_formatters func_def_arg entry: `"\n{spc:<{indent}}{key}={val},"`. -/
def cStrFuncDefArgFmt (indent : Nat) (key val : String) : String :=
  "\n" ++ spc indent ++ key ++ "=" ++ val ++ ","

/-- Mode dispatch to the string-like formatter. -/
def strFrag (mode : Mode) (indent : Nat) (v : PyVal) : String :=
  match mode with
  | .precise => stringsRepr indent v
  | .display => stringsStr indent v

/-- Mode dispatch to the set-like formatter. -/
def setFrag (mode : Mode) (indent : Nat) (xs : List PyVal) : String :=
  match mode with
  | .precise => setRepr indent xs
  | .display => setStr indent xs

/-- Mode dispatch to the default/scalar formatter. -/
def defaultFrag (mode : Mode) (indent : Nat) (v : PyVal) : String :=
  match mode with
  | .precise => sReprDefaultFmt indent v
  | .display => sStrDefaultFmt indent v

/-- Mode dispatch to the dict-entry formatter. -/
def dictEntryFmt (mode : Mode) (indent size : Nat) (k : PyVal) (val : String) : String :=
  match mode with
  | .precise => cReprDictFmt indent size k val
  | .display => cStrDictFmt indent size k val

/-- Variadic star markers of a formal parameter. -/
def starsTxt (n : Nat) : String := if n = 0 then "" else if n = 1 then "*" else "**"

/-- Annotation suffix of a parameter key (`: <annotation text>` when present). -/
def annTxt : Option String → String
  | some a => ": " ++ a
  | none => ""

/-- The key text of a formal parameter: star markers, name and annotation. -/
def argKey (p : PParam) : String := starsTxt p.1 ++ p.2.1 ++ annTxt p.2.2.1

/-- Modelled from the spec: one rendered parameter line, via the `func_arg`
template when the parameter has no value and the `func_def_arg` template with
the mode's rendering of the default or bound value otherwise. -/
def paramFrag (mode : Mode) (indent : Nat) (p : PParam) : String :=
  match p.2.2.2 with
  | none =>
      (match mode with
       | .precise => cReprFuncArgFmt indent (argKey p)
       | .display => cStrFuncArgFmt indent (argKey p))
  | some v =>
      (match mode with
       | .precise => cReprFuncDefArgFmt indent (argKey p) (leafText .precise v)
       | .display => cStrFuncDefArgFmt indent (argKey p) (leafText .display v))

/-- The concatenated parameter lines of a callable, in declaration order. -/
def paramsFrag (mode : Mode) (indent : Nat) (ps : List PParam) : String :=
  joinStr (ps.map (paramFrag mode indent))

/-- Modelled from the spec: the callable category rendering — the callable
template applied to the mode's identity text and the parameter lines, each one
level (4 columns) deeper; a non-empty parameter list is closed by a newline
before the closing parenthesis, an empty one stays inside the parentheses. -/
def callableFrag (mode : Mode) (indent : Nat) (r s : String) (ps : List PParam) : String :=
  let args := if ps.isEmpty then "" else paramsFrag mode (indent + 4) ps ++ "\n"
  match mode with
  | .precise => cReprCallableFmt indent r args
  | .display => cStrCallableFmt indent s args

/-- Width of the aligned key column: the maximum key-text width at this level. -/
def dictKeyWidth (mode : Mode) (es : List (PyVal × PyVal)) : Nat :=
  (es.map (fun kv => (keyText mode kv.1).length)).foldr max 0

mutual

/-- Modelled from the spec: the degraded rendering once `indent ≥ max_indent` —
child fragments are rendered with indent 0, concatenated onto a single line
without newlines and joined by commas; leaves fall back to their single-line
formatting rules at indent 0. -/
def compactLine (mode : Mode) : PyVal → String
  | .plist xs => "[" ++ joinSep "," (compactList mode xs) ++ "]"
  | .ptuple xs => "(" ++ joinSep "," (compactList mode xs) ++ ")"
  | .pdict es => "\x7b" ++ joinSep "," (compactEntries mode es) ++ "\x7d"
  | .pstr s => strFrag mode 0 (.pstr s)
  | .pbytes bs => strFrag mode 0 (.pbytes bs)
  | .pset xs => setFrag mode 0 xs
  | .pcustom s => strFrag mode 0 (.pstr s)
  | v => defaultFrag mode 0 v

/-- Compact fragments of the elements of a list. -/
def compactList (mode : Mode) : List PyVal → List String
  | [] => []
  | x :: tl => compactLine mode x :: compactList mode tl

/-- Compact `key: value` fragments of the entries of a dict. -/
def compactEntries (mode : Mode) : List (PyVal × PyVal) → List String
  | [] => []
  | (k, v) :: tl => (keyText mode k ++ ": " ++ compactLine mode v) :: compactEntries mode tl

end

mutual

/-- Modelled from the spec: the recursive processor.  Dispatch by category
(custom override first, then string-like, set-like, mapping, iterable,
callable, default scalar); empty containers render as their compact token;
containers at `indent ≥ max_indent` degrade to the single-line compact
rendering; otherwise one child per line at `indent + 4` with a trailing comma
and the closing bracket on its own line at the container's indent.
`no_indent_start` suppresses the margin of the first line only. -/
def processElement (mode : Mode) (maxI : Nat) : PyVal → Nat → Bool → String
  | .pcustom s, ind, nis => strFrag mode (if nis then 0 else ind) (.pstr s)
  | .pstr s, ind, nis => strFrag mode (if nis then 0 else ind) (.pstr s)
  | .pbytes bs, ind, nis => strFrag mode (if nis then 0 else ind) (.pbytes bs)
  | .pset xs, ind, nis => setFrag mode (if nis then 0 else ind) xs
  | .pdict es, ind, nis =>
      let pad := if nis then "" else spc ind
      if es.isEmpty then pad ++ "\x7b\x7d"
      else if maxI ≤ ind then pad ++ compactLine mode (.pdict es)
      else pad ++ "\x7b" ++ dictItems mode maxI es (dictKeyWidth mode es) (ind + 4) ++
           "\n" ++ spc ind ++ "\x7d"
  | .plist xs, ind, nis =>
      let pad := if nis then "" else spc ind
      if xs.isEmpty then pad ++ "[]"
      else if maxI ≤ ind then pad ++ compactLine mode (.plist xs)
      else pad ++ "[" ++ iterItems mode maxI xs (ind + 4) ++ "\n" ++ spc ind ++ "]"
  | .ptuple xs, ind, nis =>
      let pad := if nis then "" else spc ind
      if xs.isEmpty then pad ++ "()"
      else if maxI ≤ ind then pad ++ compactLine mode (.ptuple xs)
      else pad ++ "(" ++ iterItems mode maxI xs (ind + 4) ++ "\n" ++ spc ind ++ ")"
  | .pcallable r s ps _, ind, nis => callableFrag mode (if nis then 0 else ind) r s ps
  | v, ind, nis => defaultFrag mode (if nis then 0 else ind) v

/-- One line per element at the given indent, each suffixed with a comma. -/
def iterItems (mode : Mode) (maxI : Nat) : List PyVal → Nat → String
  | [], _ => ""
  | x :: tl, ind =>
      "\n" ++ processElement mode maxI x ind false ++ "," ++ iterItems mode maxI tl ind

/-- One dict-entry line per entry at the given indent, keys padded to the
aligned column width, values rendered four columns deeper with
`no_indent_start`. -/
def dictItems (mode : Mode) (maxI : Nat) :
    List (PyVal × PyVal) → Nat → Nat → String
  | [], _, _ => ""
  | (k, v) :: tl, size, ind =>
      dictEntryFmt mode ind size k (processElement mode maxI v (ind + 4) true) ++
        dictItems mode maxI tl size ind

end

/-- Public entry point `pretty_repr(value)` with default options
(`indent=0`, `max_indent=20`, `no_indent_start=False`). -/
def prettyRepr (v : PyVal) : String := processElement .precise 20 v 0 false

/-- Public entry point `pretty_str(value)` with default options. -/
def prettyStr (v : PyVal) : String := processElement .display 20 v 0 false

/-- Modelled from the spec: Python method binding as the renderer reports it —
the implicit first parameter carries the actually bound object as its value. -/
def bindFirst (obj : PyVal) : List PParam → List PParam
  | [] => []
  | (st, nm, an, _) :: tl => (st, nm, an, some obj) :: tl

/-- The deeply nested single-element lists of `test_007_indent`:
`deepNest n` is `n` nested brackets around the int 123. -/
def deepNest : Nat → PyVal
  | 0 => .pint 123
  | n + 1 => .plist [deepNest n]

/-- Top-level well-behavedness of a value's own leaf texts: its first content
character is neither a space nor a newline, so its fragment's left margin is
exactly the requested indent. -/
def headClean : PyVal → Bool
  | .pstr s => headOkB s
  | .pbytes bs => headOkB (decodeB bs)
  | .pobj r t => headOkB r && headOkB t
  | .pcustom s => headOkB s
  | _ => true

/-- Right-aligned minimum-width padding; follows the claim's words
("key column right-aligned to widest key's text width") for comparison with
the left alignment the code performs. -/
def padKeyRight (s : String) (size : Nat) : String := spc (size - s.length) ++ s

/-- Dict-entry line under the right-alignment reading of the claim. -/
def cReprDictFmtRightAligned (indent size : Nat) (k : PyVal) (val : String) : String :=
  "\n" ++ spc indent ++ padKeyRight (reprPy k) size ++ ": " ++ val ++ ","

/-- Whether a value's type does not implement the custom-override capability. -/
def notOverride : PyVal → Bool
  | .pcustom _ => false
  | _ => true

theorem spc_data (n : Nat) : (spc n).data = List.replicate n ' ' := rfl

theorem spc_zero : spc 0 = "" := rfl

theorem countSpaces_cons_space (tl : List Char) : countSpaces (' ' :: tl) = countSpaces tl + 1 := by
  simp [countSpaces]

theorem countSpaces_replicate_append (n : Nat) (l : List Char) :
    countSpaces (List.replicate n ' ' ++ l) = n + countSpaces l := by
  induction n with
  | zero => simp
  | succ k ih =>
      rw [List.replicate_succ, List.cons_append, countSpaces_cons_space, ih]
      omega

theorem countSpaces_head_ne {c : Char} (tl : List Char) (h : ¬ c = ' ') :
    countSpaces (c :: tl) = 0 := by
  simp only [countSpaces, if_neg h]

theorem dropNls_head_ne {c : Char} (tl : List Char) (h : ¬ c = '\n') :
    dropNls (c :: tl) = c :: tl := by
  simp only [dropNls, if_neg h]

theorem headOkB_iff (s : String) :
    headOkB s = true ↔ (s.data = [] ∨ ∃ c tl, s.data = c :: tl ∧ ¬ c = ' ' ∧ ¬ c = '\n') := by
  unfold headOkB
  cases h : s.data with
  | nil => simp
  | cons c tl =>
      simp only [Bool.not_eq_true']
      constructor
      · intro hb
        refine Or.inr ⟨c, tl, rfl, ?_, ?_⟩ <;> intro he <;> subst he <;> simp_all
      · rintro (hn | ⟨c', tl', he, h1, h2⟩)
        · exact absurd hn (by simp)
        · cases he
          simp [decide_eq_false h1, decide_eq_false h2]

theorem firstLineIndent_margin (i : Nat) (t : String) (h : headOkB t = true) :
    firstLineIndent (spc i ++ t) = i := by
  unfold firstLineIndent
  rw [String.data_append, spc_data]
  rcases (headOkB_iff t).mp h with hn | ⟨c, tl, he, h1, h2⟩
  · rw [hn]
    cases i with
    | zero => simp [dropNls, countSpaces]
    | succ k =>
        rw [List.append_nil, List.replicate_succ, dropNls_head_ne _ (by decide)]
        rw [← List.replicate_succ, ← List.append_nil (List.replicate (k+1) ' '),
          countSpaces_replicate_append]
        simp [countSpaces]
  · rw [he]
    cases i with
    | zero =>
        simp only [List.replicate, List.nil_append]
        rw [dropNls_head_ne _ h2, countSpaces_head_ne _ h1]
    | succ k =>
        rw [List.replicate_succ, List.cons_append, dropNls_head_ne _ (by decide),
          ← List.cons_append, ← List.replicate_succ, countSpaces_replicate_append,
          countSpaces_head_ne _ h1]

theorem firstLineIndent_nl_margin (i : Nat) (t : String) (h : headOkB t = true) :
    firstLineIndent ("\n" ++ (spc i ++ t)) = i := by
  have base := firstLineIndent_margin i t h
  unfold firstLineIndent at base ⊢
  rw [String.data_append]
  have hd : ("\n" : String).data = ['\n'] := rfl
  rw [hd, List.cons_append, List.nil_append]
  simp only [dropNls, if_pos rfl]
  exact base

theorem headOkB_append {s : String} (t : String) (h : headOkB s = true) (hne : s.data ≠ []) :
    headOkB (s ++ t) = true := by
  rcases (headOkB_iff s).mp h with hn | ⟨c, tl, he, h1, h2⟩
  · exact absurd hn hne
  · refine (headOkB_iff _).mpr (Or.inr ⟨c, tl ++ t.data, ?_, h1, h2⟩)
    rw [String.data_append, he, List.cons_append]

theorem digitChar_ok (m : Nat) : ¬ digitChar m = ' ' ∧ ¬ digitChar m = '\n' := by
  unfold digitChar
  have hlt : m % 10 < 10 := Nat.mod_lt _ (by decide)
  set k := m % 10 with hk
  interval_cases k <;> exact (by decide)

theorem natDigitsF_chars (f : Nat) : ∀ n c, c ∈ natDigitsF f n → ∃ m, c = digitChar m := by
  induction f with
  | zero => intro n c hc; simp [natDigitsF] at hc
  | succ g ih =>
      intro n c hc
      unfold natDigitsF at hc
      by_cases hn : n = 0
      · simp [hn] at hc
      · rw [if_neg hn] at hc
        rcases List.mem_append.mp hc with hl | hr
        · exact ih _ _ hl
        · exact ⟨n, by simpa using hr⟩

theorem headOkB_of_chars (l : List Char) (h : ∀ c ∈ l, ¬ c = ' ' ∧ ¬ c = '\n') :
    headOkB (String.mk l) = true := by
  refine (headOkB_iff _).mpr ?_
  cases l with
  | nil => exact Or.inl rfl
  | cons c tl =>
      rcases h c (by simp) with ⟨h1, h2⟩
      exact Or.inr ⟨c, tl, rfl, h1, h2⟩

theorem headOkB_natRepr (n : Nat) : headOkB (natRepr n) = true := by
  unfold natRepr
  by_cases hn : n = 0
  · simp [hn]; decide
  · rw [if_neg hn]
    refine headOkB_of_chars _ ?_
    intro c hc
    rcases natDigitsF_chars _ _ _ hc with ⟨m, rfl⟩
    exact digitChar_ok m

theorem headOkB_intRepr (n : Int) : headOkB (intRepr n) = true := by
  cases n with
  | ofNat m => exact headOkB_natRepr m
  | negSucc m =>
      unfold intRepr
      exact headOkB_append _ (by decide) (by decide)

theorem reprPyList_eq_map (xs : List PyVal) : reprPyList xs = xs.map reprPy := by
  induction xs with
  | nil => rfl
  | cons x tl ih => simp [reprPyList, ih]

theorem reprPyEntries_eq_map (es : List (PyVal × PyVal)) :
    reprPyEntries es = es.map (fun kv => reprPy kv.1 ++ ": " ++ reprPy kv.2) := by
  induction es with
  | nil => rfl
  | cons kv tl ih => cases kv; simp [reprPyEntries, ih]

theorem compactList_eq_map (mode : Mode) (xs : List PyVal) :
    compactList mode xs = xs.map (compactLine mode) := by
  induction xs with
  | nil => rfl
  | cons x tl ih => simp [compactList, ih]

theorem compactEntries_eq_map (mode : Mode) (es : List (PyVal × PyVal)) :
    compactEntries mode es =
      es.map (fun kv => keyText mode kv.1 ++ ": " ++ compactLine mode kv.2) := by
  induction es with
  | nil => rfl
  | cons kv tl ih => cases kv; simp [compactEntries, ih]

theorem iterItems_eq_join (mode : Mode) (maxI : Nat) (xs : List PyVal) (ind : Nat) :
    iterItems mode maxI xs ind =
      joinStr (xs.map (fun x => "\n" ++ processElement mode maxI x ind false ++ ",")) := by
  induction xs with
  | nil => rfl
  | cons x tl ih => simp [iterItems, joinStr, ih, String.append_assoc]

theorem dictItems_eq_join (mode : Mode) (maxI : Nat) (es : List (PyVal × PyVal))
    (size ind : Nat) :
    dictItems mode maxI es size ind =
      joinStr (es.map (fun kv =>
        dictEntryFmt mode ind size kv.1 (processElement mode maxI kv.2 (ind + 4) true))) := by
  induction es with
  | nil => rfl
  | cons kv tl ih => cases kv; simp [dictItems, joinStr, ih]

theorem countNl_append (a b : String) : countNl (a ++ b) = countNl a + countNl b := by
  unfold countNl
  rw [String.data_append, List.count_append]

theorem countNl_spc (n : Nat) : countNl (spc n) = 0 := by
  unfold countNl
  rw [spc_data]
  induction n with
  | zero => rfl
  | succ k ih => rw [List.replicate_succ, List.count_cons]; simp [ih]

theorem hasNl_append (a b : String) : hasNl (a ++ b) = (hasNl a || hasNl b) := by
  unfold hasNl
  rw [String.data_append, List.any_append]

theorem hasNl_spc (n : Nat) : hasNl (spc n) = false := by
  unfold hasNl
  rw [spc_data]
  induction n with
  | zero => rfl
  | succ k ih => rw [List.replicate_succ]; simp [ih]

theorem hasNl_natRepr (m : Nat) : hasNl (natRepr m) = false := by
  unfold natRepr
  by_cases hm : m = 0
  · simp [hm]; decide
  · rw [if_neg hm]
    unfold hasNl
    rw [List.any_eq_false]
    intro c hc
    have hc' : c ∈ natDigitsF (m + 1) m := hc
    rcases natDigitsF_chars (m + 1) m c hc' with ⟨k, rfl⟩
    simpa using (digitChar_ok k).2

theorem hasNl_intRepr (n : Int) : hasNl (intRepr n) = false := by
  cases n with
  | ofNat m => exact hasNl_natRepr m
  | negSucc m =>
      unfold intRepr
      rw [hasNl_append, hasNl_natRepr]
      decide

theorem pe_leaf_eq (mode : Mode) (maxI : Nat) (v : PyVal) (i : Nat) (nis : Bool) :
    (∀ s, v = .pstr s → processElement mode maxI v i nis =
        strFrag mode (if nis then 0 else i) (.pstr s)) ∧
    (∀ s, v = .pcustom s → processElement mode maxI v i nis =
        strFrag mode (if nis then 0 else i) (.pstr s)) := by
  constructor <;> rintro s rfl <;> rfl

theorem pe_list_empty (mode : Mode) (maxI : Nat) (i : Nat) (nis : Bool) :
    processElement mode maxI (.plist []) i nis = (if nis then "" else spc i) ++ "[]" := by
  cases nis <;> rfl

theorem pe_tuple_empty (mode : Mode) (maxI : Nat) (i : Nat) (nis : Bool) :
    processElement mode maxI (.ptuple []) i nis = (if nis then "" else spc i) ++ "()" := by
  cases nis <;> rfl

theorem pe_dict_empty (mode : Mode) (maxI : Nat) (i : Nat) (nis : Bool) :
    processElement mode maxI (.pdict []) i nis =
      (if nis then "" else spc i) ++ "\x7b\x7d" := by
  cases nis <;> rfl

theorem pe_list_cutoff (mode : Mode) (maxI : Nat) (xs : List PyVal) (i : Nat) (nis : Bool)
    (hne : xs ≠ []) (hge : maxI ≤ i) :
    processElement mode maxI (.plist xs) i nis =
      (if nis then "" else spc i) ++ compactLine mode (.plist xs) := by
  have he : xs.isEmpty = false := by simpa [List.isEmpty_iff] using hne
  cases nis <;>
    simp only [processElement, he, Bool.false_eq_true, if_false, if_pos hge, if_true]

theorem pe_tuple_cutoff (mode : Mode) (maxI : Nat) (xs : List PyVal) (i : Nat) (nis : Bool)
    (hne : xs ≠ []) (hge : maxI ≤ i) :
    processElement mode maxI (.ptuple xs) i nis =
      (if nis then "" else spc i) ++ compactLine mode (.ptuple xs) := by
  have he : xs.isEmpty = false := by simpa [List.isEmpty_iff] using hne
  cases nis <;>
    simp only [processElement, he, Bool.false_eq_true, if_false, if_pos hge, if_true]

theorem pe_dict_cutoff (mode : Mode) (maxI : Nat) (es : List (PyVal × PyVal)) (i : Nat)
    (nis : Bool) (hne : es ≠ []) (hge : maxI ≤ i) :
    processElement mode maxI (.pdict es) i nis =
      (if nis then "" else spc i) ++ compactLine mode (.pdict es) := by
  have he : es.isEmpty = false := by simpa [List.isEmpty_iff] using hne
  cases nis <;>
    simp only [processElement, he, Bool.false_eq_true, if_false, if_pos hge, if_true]

theorem pe_list_multiline (mode : Mode) (maxI : Nat) (xs : List PyVal) (i : Nat) (nis : Bool)
    (hne : xs ≠ []) (hlt : i < maxI) :
    processElement mode maxI (.plist xs) i nis =
      (if nis then "" else spc i) ++ "[" ++
        joinStr (xs.map (fun x => "\n" ++ processElement mode maxI x (i + 4) false ++ ",")) ++
        "\n" ++ spc i ++ "]" := by
  have he : xs.isEmpty = false := by simpa [List.isEmpty_iff] using hne
  have hn : ¬ maxI ≤ i := by omega
  cases nis <;>
    simp only [processElement, he, Bool.false_eq_true, if_false, if_neg hn, if_true,
      iterItems_eq_join]

theorem pe_tuple_multiline (mode : Mode) (maxI : Nat) (xs : List PyVal) (i : Nat) (nis : Bool)
    (hne : xs ≠ []) (hlt : i < maxI) :
    processElement mode maxI (.ptuple xs) i nis =
      (if nis then "" else spc i) ++ "(" ++
        joinStr (xs.map (fun x => "\n" ++ processElement mode maxI x (i + 4) false ++ ",")) ++
        "\n" ++ spc i ++ ")" := by
  have he : xs.isEmpty = false := by simpa [List.isEmpty_iff] using hne
  have hn : ¬ maxI ≤ i := by omega
  cases nis <;>
    simp only [processElement, he, Bool.false_eq_true, if_false, if_neg hn, if_true,
      iterItems_eq_join]

theorem pe_dict_multiline (mode : Mode) (maxI : Nat) (es : List (PyVal × PyVal)) (i : Nat)
    (nis : Bool) (hne : es ≠ []) (hlt : i < maxI) :
    processElement mode maxI (.pdict es) i nis =
      (if nis then "" else spc i) ++ "\x7b" ++
        joinStr (es.map (fun kv => dictEntryFmt mode (i + 4) (dictKeyWidth mode es) kv.1
          (processElement mode maxI kv.2 (i + 8) true))) ++
        "\n" ++ spc i ++ "\x7d" := by
  have he : es.isEmpty = false := by simpa [List.isEmpty_iff] using hne
  have hn : ¬ maxI ≤ i := by omega
  have harith : i + 4 + 4 = i + 8 := by omega
  cases nis <;>
    simp only [processElement, he, Bool.false_eq_true, if_false, if_neg hn, if_true,
      dictItems_eq_join, harith]

theorem data_ne_append (a t : String) (h : a.data ≠ []) : (a ++ t).data ≠ [] := by
  rw [String.data_append]
  simp only [ne_eq, List.append_eq_nil]
  intro hc
  exact h hc.1

theorem headClean_true {v : PyVal} (h : headClean v = true) :
    (∀ s, v = .pstr s → headOkB s = true) ∧
    (∀ bs, v = .pbytes bs → headOkB (decodeB bs) = true) ∧
    (∀ s, v = .pcustom s → headOkB s = true) ∧
    (∀ r t, v = .pobj r t → headOkB r = true ∧ headOkB t = true) := by
  refine ⟨?_, ?_, ?_, ?_⟩
  · rintro s rfl; exact h
  · rintro bs rfl; exact h
  · rintro s rfl; exact h
  · rintro r t rfl
    have h' : (headOkB r && headOkB t) = true := h
    simp only [Bool.and_eq_true] at h'
    exact h'

theorem fli_processElement (mode : Mode) (maxI : Nat) (v : PyVal) (i : Nat)
    (h : headClean v = true) :
    firstLineIndent (processElement mode maxI v i false) = i := by
  cases v with
  | pint n =>
      cases mode <;>
        · show firstLineIndent (spc i ++ intRepr n) = i
          exact firstLineIndent_margin _ _ (headOkB_intRepr n)
  | pbool b =>
      cases mode <;> cases b <;>
        first
        | (show firstLineIndent (spc i ++ "True") = i
           exact firstLineIndent_margin _ _ (by decide))
        | (show firstLineIndent (spc i ++ "False") = i
           exact firstLineIndent_margin _ _ (by decide))
  | pnone =>
      cases mode <;>
        · show firstLineIndent (spc i ++ "None") = i
          exact firstLineIndent_margin _ _ (by decide)
  | pstr s =>
      have hs : headOkB s = true := (headClean_true h).1 s rfl
      cases mode with
      | precise =>
          show firstLineIndent (spc i ++ "u\x27\x27\x27" ++ s ++ "\x27\x27\x27") = i
          simp only [String.append_assoc]
          exact firstLineIndent_margin _ _
            (headOkB_append _ (by decide) (by decide))
      | display =>
          show firstLineIndent (spc i ++ s) = i
          exact firstLineIndent_margin _ _ hs
  | pbytes bs =>
      have hs : headOkB (decodeB bs) = true := (headClean_true h).2.1 bs rfl
      cases mode with
      | precise =>
          show firstLineIndent (spc i ++ "b\x27\x27\x27" ++ decodeB bs ++ "\x27\x27\x27") = i
          simp only [String.append_assoc]
          exact firstLineIndent_margin _ _
            (headOkB_append _ (by decide) (by decide))
      | display =>
          show firstLineIndent (spc i ++ decodeB bs) = i
          exact firstLineIndent_margin _ _ hs
  | pcustom s =>
      have hs : headOkB s = true := (headClean_true h).2.2.1 s rfl
      cases mode with
      | precise =>
          show firstLineIndent (spc i ++ "u\x27\x27\x27" ++ s ++ "\x27\x27\x27") = i
          simp only [String.append_assoc]
          exact firstLineIndent_margin _ _
            (headOkB_append _ (by decide) (by decide))
      | display =>
          show firstLineIndent (spc i ++ s) = i
          exact firstLineIndent_margin _ _ hs
  | pobj r t =>
      rcases (headClean_true h).2.2.2 r t rfl with ⟨hr, ht⟩
      cases mode with
      | precise =>
          show firstLineIndent (spc i ++ r) = i
          exact firstLineIndent_margin _ _ hr
      | display =>
          show firstLineIndent (spc i ++ t) = i
          exact firstLineIndent_margin _ _ ht
  | pset xs =>
      cases mode <;>
        · show firstLineIndent (spc i ++ "set(" ++ _ ++ ")") = i
          simp only [String.append_assoc]
          exact firstLineIndent_margin _ _
            (headOkB_append _ (by decide) (by decide))
  | pcallable r s ps ret =>
      cases mode with
      | precise =>
          show firstLineIndent ("\n" ++ spc i ++ "<" ++ r ++ " with interface (" ++ _ ++ ")>") = i
          simp only [String.append_assoc]
          exact firstLineIndent_nl_margin _ _
            (headOkB_append _ (by decide) (by decide))
      | display =>
          show firstLineIndent ("\n" ++ spc i ++ "<" ++ s ++ " with interface (" ++ _ ++ ")>") = i
          simp only [String.append_assoc]
          exact firstLineIndent_nl_margin _ _
            (headOkB_append _ (by decide) (by decide))
  | plist xs =>
      by_cases hxs : xs = []
      · subst hxs
        show firstLineIndent (spc i ++ "[]") = i
        exact firstLineIndent_margin _ _ (by decide)
      · by_cases hge : maxI ≤ i
        · rw [pe_list_cutoff mode maxI xs i false hxs hge]
          show firstLineIndent (spc i ++ ("[" ++ joinSep "," (compactList mode xs) ++ "]")) = i
          exact firstLineIndent_margin _ _
            (headOkB_append _ (headOkB_append _ (by decide) (by decide))
              (data_ne_append _ _ (by decide)))
        · rw [pe_list_multiline mode maxI xs i false hxs (by omega)]
          show firstLineIndent ((spc i ++ "[" ++ _ ++ "\n" ++ spc i ++ "]")) = i
          simp only [String.append_assoc]
          exact firstLineIndent_margin _ _
            (headOkB_append _ (by decide) (by decide))
  | ptuple xs =>
      by_cases hxs : xs = []
      · subst hxs
        show firstLineIndent (spc i ++ "()") = i
        exact firstLineIndent_margin _ _ (by decide)
      · by_cases hge : maxI ≤ i
        · rw [pe_tuple_cutoff mode maxI xs i false hxs hge]
          show firstLineIndent (spc i ++ ("(" ++ joinSep "," (compactList mode xs) ++ ")")) = i
          exact firstLineIndent_margin _ _
            (headOkB_append _ (headOkB_append _ (by decide) (by decide))
              (data_ne_append _ _ (by decide)))
        · rw [pe_tuple_multiline mode maxI xs i false hxs (by omega)]
          show firstLineIndent ((spc i ++ "(" ++ _ ++ "\n" ++ spc i ++ ")")) = i
          simp only [String.append_assoc]
          exact firstLineIndent_margin _ _
            (headOkB_append _ (by decide) (by decide))
  | pdict es =>
      by_cases hes : es = []
      · subst hes
        show firstLineIndent (spc i ++ "\x7b\x7d") = i
        exact firstLineIndent_margin _ _ (by decide)
      · by_cases hge : maxI ≤ i
        · rw [pe_dict_cutoff mode maxI es i false hes hge]
          show firstLineIndent
              (spc i ++ ("\x7b" ++ joinSep "," (compactEntries mode es) ++ "\x7d")) = i
          exact firstLineIndent_margin _ _
            (headOkB_append _ (headOkB_append _ (by decide) (by decide))
              (data_ne_append _ _ (by decide)))
        · rw [pe_dict_multiline mode maxI es i false hes (by omega)]
          show firstLineIndent ((spc i ++ "\x7b" ++ _ ++ "\n" ++ spc i ++ "\x7d")) = i
          simp only [String.append_assoc]
          exact firstLineIndent_margin _ _
            (headOkB_append _ (by decide) (by decide))

theorem spc_length (n : Nat) : (spc n).length = n := by
  show (List.replicate n ' ').length = n
  exact List.length_replicate n ' '

theorem countNl_zero_of_hasNl_false (s : String) (h : hasNl s = false) : countNl s = 0 := by
  unfold hasNl at h
  unfold countNl
  rw [List.count_eq_zero]
  intro hc
  rw [List.any_eq_false] at h
  simpa using h '\n' hc

theorem joinStr_map_ends_comma {α : Type} (g : α → String) :
    ∀ xs : List α, xs ≠ [] →
      ∃ J, joinStr (xs.map (fun x => "\n" ++ g x ++ ",")) = J ++ "," := by
  intro xs
  induction xs with
  | nil => intro h; exact absurd rfl h
  | cons x tl ih =>
      intro _
      cases tl with
      | nil =>
          refine ⟨"\n" ++ g x, ?_⟩
          simp [joinStr, String.append_empty]
      | cons y tl2 =>
          rcases ih (by simp) with ⟨J, hJ⟩
          refine ⟨"\n" ++ g x ++ "," ++ J, ?_⟩
          show ("\n" ++ g x ++ ",") ++ joinStr ((y :: tl2).map (fun x => "\n" ++ g x ++ ",")) = _
          rw [hJ, ← String.append_assoc]

theorem countNl_joinStr_map {α : Type} (g : α → String) :
    ∀ xs : List α, (∀ x ∈ xs, hasNl (g x) = false) →
      countNl (joinStr (xs.map (fun x => "\n" ++ g x ++ ","))) = xs.length := by
  intro xs
  induction xs with
  | nil => intro _; rfl
  | cons x tl ih =>
      intro h
      show countNl (("\n" ++ g x ++ ",") ++ joinStr (tl.map (fun x => "\n" ++ g x ++ ","))) = _
      rw [countNl_append, countNl_append, countNl_append,
        countNl_zero_of_hasNl_false _ (h x (by simp)), ih (fun y hy => h y (by simp [hy]))]
      have h1 : countNl "\n" = 1 := by decide
      have h2 : countNl "," = 0 := by decide
      rw [h1, h2]
      simp [List.length_cons]
      omega

theorem hasNl_joinSep (sep : String) (hsep : hasNl sep = false) :
    ∀ l : List String, (∀ s ∈ l, hasNl s = false) → hasNl (joinSep sep l) = false := by
  intro l
  induction l with
  | nil => intro _; rfl
  | cons s tl ih =>
      intro h
      cases tl with
      | nil => exact h s (by simp)
      | cons t tl2 =>
          show hasNl ((s ++ sep) ++ joinSep sep (t :: tl2)) = false
          rw [hasNl_append, hasNl_append, h s (by simp), hsep,
            ih (fun y hy => h y (by simp [hy]))]
          rfl

theorem le_foldr_max (l : List Nat) : ∀ a ∈ l, a ≤ l.foldr max 0 := by
  induction l with
  | nil => intro a ha; simp at ha
  | cons b tl ih =>
      intro a ha
      rcases List.mem_cons.mp ha with rfl | hmem
      · exact le_max_left _ _
      · exact le_trans (ih a hmem) (le_max_right _ _)

theorem padKey_length (s : String) (w : Nat) (h : s.length ≤ w) : (padKey s w).length = w := by
  unfold padKey
  rw [String.length_append, spc_length]
  omega

theorem dictEntryFmt_eq (mode : Mode) (ind size : Nat) (k : PyVal) (val : String) :
    dictEntryFmt mode ind size k val =
      "\n" ++ spc ind ++ padKey (keyText mode k) size ++ ": " ++ val ++ "," := by
  cases mode <;> rfl

/-- C6: in precise (repr) mode a text string renders as `u'''<text>'''` and a
binary string is decoded as UTF-8 with the lossy backslash-escape fallback and
renders as `b'''<text>'''`; in display (str) mode the decoded text is emitted
plain, without prefix or quotes.  The last three conjuncts evaluate the decoder:
a valid multi-byte sequence decodes to its code point, an invalid byte becomes
its backslash escape, and `b'bytes\x01'` decodes to `bytes\x01`. -/
theorem claim_C6 : ∀ (maxI i : Nat) (s : String) (bs : List Nat),
    processElement .precise maxI (.pstr s) i false =
        spc i ++ "u\x27\x27\x27" ++ s ++ "\x27\x27\x27"
    ∧ processElement .precise maxI (.pbytes bs) i false =
        spc i ++ "b\x27\x27\x27" ++ decodeB bs ++ "\x27\x27\x27"
    ∧ processElement .display maxI (.pstr s) i false = spc i ++ s
    ∧ processElement .display maxI (.pbytes bs) i false = spc i ++ decodeB bs
    ∧ decodeB [226, 156, 147] = "✓"
    ∧ decodeB [255] = "\\xff"
    ∧ decodeB [98, 121, 116, 101, 115, 1] = "bytes\x01" := by
  intro maxI i s bs
  exact ⟨rfl, rfl, rfl, rfl, by decide, by decide, by decide⟩

/-- C7: every empty container renders as its single compact one-line token at
any indent and with or without `no_indent_start` — `[]`, `()`, `{}` and
`set()` — and the tokens contain no newline; the closing conjunct shows the
empty containers rendered compactly inside a nested rendering. -/
theorem claim_C7 : ∀ (mode : Mode) (maxI i : Nat) (nis : Bool),
    processElement mode maxI (.plist []) i nis = (if nis then "" else spc i) ++ "[]"
    ∧ processElement mode maxI (.ptuple []) i nis = (if nis then "" else spc i) ++ "()"
    ∧ processElement mode maxI (.pdict []) i nis = (if nis then "" else spc i) ++ "\x7b\x7d"
    ∧ processElement mode maxI (.pset []) i nis = (if nis then "" else spc i) ++ "set()"
    ∧ (hasNl "[]" = false ∧ hasNl "()" = false ∧ hasNl "\x7b\x7d" = false ∧
        hasNl "set()" = false)
    ∧ prettyRepr (.plist [.pdict [], .plist [], .ptuple [], .pset []]) =
        "[\n    \x7b\x7d,\n    [],\n    (),\n    set(),\n]" := by
  intro mode maxI i nis
  refine ⟨pe_list_empty mode maxI i nis, pe_tuple_empty mode maxI i nis,
    pe_dict_empty mode maxI i nis, ?_, by decide, by decide⟩
  have hset : ∀ ind : Nat, setFrag mode ind ([] : List PyVal) = spc ind ++ "set()" := by
    intro ind
    cases mode <;>
      · show ((spc ind ++ "set(") ++ "") ++ ")" = spc ind ++ "set()"
        rw [String.append_empty, String.append_assoc]
        rfl
  cases nis
  · show setFrag mode i [] = spc i ++ "set()"
    simpa using hset i
  · show setFrag mode 0 [] = "" ++ "set()"
    rw [hset 0]
    rfl

/-- C8 counterexample: the claim predicts that the override's delegated text
comes back re-quoted as `'<Test Class at 0x...>'`; the code's string rule
(`_strings_repr`) re-quotes it as `u'''<Test Class at 0x...>'''` instead, so
the claimed output differs from the rendered one at this concrete input. -/
theorem claim_C8_counterexample :
    prettyRepr (.pcustom "<Test Class at 0x1A2B>") =
        "u\x27\x27\x27<Test Class at 0x1A2B>\x27\x27\x27"
    ∧ prettyRepr (.pcustom "<Test Class at 0x1A2B>") ≠
        "\x27<Test Class at 0x1A2B>\x27" := by
  exact ⟨by decide, by decide⟩

/-- C8 amended: a value with the custom-override capability that passes a text
back through `process_element` renders exactly as that text processed by the
engine's string rule — `u'''<text>'''` in precise mode and the plain text in
display mode — the override's delegated value is processed by the same
formatting rules, not bypassed. -/
theorem claim_C8_amended : ∀ (mode : Mode) (maxI : Nat) (s : String) (i : Nat) (nis : Bool),
    processElement mode maxI (.pcustom s) i nis = processElement mode maxI (.pstr s) i nis
    ∧ prettyRepr (.pcustom s) = "u\x27\x27\x27" ++ s ++ "\x27\x27\x27"
    ∧ prettyStr (.pcustom s) = s := by
  intro mode maxI s i nis
  refine ⟨rfl, ?_, ?_⟩
  · show (spc 0 ++ "u\x27\x27\x27") ++ s ++ "\x27\x27\x27" = "u\x27\x27\x27" ++ s ++ "\x27\x27\x27"
    rw [show spc 0 ++ "u\x27\x27\x27" = "u\x27\x27\x27" from by decide]
  · show spc 0 ++ s = s
    rw [spc_zero, String.empty_append]

/-- C9: for every value whose type has no custom override, the engine produces
a string (it is a total function on every category), and a value of no
recognized category — modelled by `pobj` — falls back to the default/scalar
rule: the margin followed by the value's own `repr`/`str` conversion. -/
theorem claim_C9 : ∀ (mode : Mode) (maxI : Nat) (v : PyVal) (i : Nat) (nis : Bool),
    notOverride v = true →
      (∃ out, processElement mode maxI v i nis = out)
      ∧ (∀ r t, v = .pobj r t →
          processElement mode maxI v i nis =
            defaultFrag mode (if nis then 0 else i) (.pobj r t)
          ∧ defaultFrag .precise (if nis then 0 else i) (.pobj r t) =
              spc (if nis then 0 else i) ++ r
          ∧ defaultFrag .display (if nis then 0 else i) (.pobj r t) =
              spc (if nis then 0 else i) ++ t) := by
  intro mode maxI v i nis _
  refine ⟨⟨_, rfl⟩, ?_⟩
  rintro r t rfl
  exact ⟨rfl, rfl, rfl⟩

/-- C9 witness: the fallback evaluated on a concrete unrecognized object. -/
theorem claim_C9_witness :
    notOverride (.pobj "<A object>" "A()") = true ∧
    processElement .precise 20 (.pobj "<A object>" "A()") 0 false = "<A object>" := by
  have h := claim_C9 .precise 20 (.pobj "<A object>" "A()") 0 false (by decide)
  refine ⟨by decide, ?_⟩
  rcases h.2 "<A object>" "A()" rfl with ⟨h1, h2, _⟩
  rw [h1, h2]
  decide

/-- C5 (code bug): the repr callable template of `_formatters.py` has no
annotation slot — its output ends with `)>` for every input, so the
` -> <annotation text>` suffix required by the spec and by
`test_002_annotation_return` can never be appended; at the failing input (a
parameterless callable declaring return annotation `None`) the rendering lacks
the ` -> None` the repo's own test expects. -/
theorem claim_C5_bug :
    (∀ (i : Nat) (objRepr args : String), ∃ t, cReprCallableFmt i objRepr args = t ++ ")>")
    ∧ (∀ (mode : Mode) (maxI i : Nat) (r s : String) (ps : List PParam) (ret : Option String),
        ∃ t, processElement mode maxI (.pcallable r s ps ret) i false = t ++ ")>")
    ∧ processElement .precise 20 (.pcallable "<function func>" "func" [] (some "None")) 0 false
        = "\n<<function func> with interface ()>"
    ∧ ("\n<<function func> with interface ()>" : String) ≠
        "\n<<function func> with interface () -> None>" := by
  refine ⟨?_, ?_, by decide, by decide⟩
  · intro i objRepr args
    exact ⟨_, rfl⟩
  · intro mode maxI i r s ps ret
    cases mode <;> exact ⟨_, rfl⟩

theorem paramFrag_agree (i : Nat) (p : PParam)
    (h : ∀ v, p.2.2.2 = some v → reprPy v = strPy v) :
    paramFrag .precise i p = paramFrag .display i p := by
  rcases p with ⟨st, nm, an, val⟩
  cases val with
  | none => rfl
  | some v =>
      have hv : reprPy v = strPy v := h v rfl
      show "\n" ++ spc i ++ argKey (st, nm, an, some v) ++ "=" ++ reprPy v ++ "," =
        "\n" ++ spc i ++ argKey (st, nm, an, some v) ++ "=" ++ strPy v ++ ","
      rw [hv]

theorem paramsFrag_agree (i : Nat) (ps : List PParam)
    (h : ∀ p ∈ ps, ∀ v, p.2.2.2 = some v → reprPy v = strPy v) :
    paramsFrag .precise i ps = paramsFrag .display i ps := by
  induction ps with
  | nil => rfl
  | cons p tl ih =>
      show paramFrag .precise i p ++ paramsFrag .precise i tl =
        paramFrag .display i p ++ paramsFrag .display i tl
      rw [paramFrag_agree i p (h p (by simp)), ih (fun q hq => h q (by simp [hq]))]

/-- C10 counterexample: the claim "the parameter-list portion is identical in
repr and str mode for every callable" fails for a string-valued default — repr
mode renders `darg='a'` while str mode renders `darg=a`, so the parameter lines
and the two full renderings differ at this concrete callable. -/
theorem claim_C10_counterexample :
    paramFrag .precise 4 (0, "darg", none, some (.pstr "a")) = "\n    darg=\x27a\x27,"
    ∧ paramFrag .display 4 (0, "darg", none, some (.pstr "a")) = "\n    darg=a,"
    ∧ paramFrag .precise 4 (0, "darg", none, some (.pstr "a")) ≠
        paramFrag .display 4 (0, "darg", none, some (.pstr "a"))
    ∧ prettyRepr (.pcallable "<function f>" "f" [(0, "darg", none, some (.pstr "a"))] none)
        = "\n<<function f> with interface (\n    darg=\x27a\x27,\n)>"
    ∧ prettyStr (.pcallable "<function f>" "f" [(0, "darg", none, some (.pstr "a"))] none)
        = "\n<f with interface (\n    darg=a,\n)>" := by
  exact ⟨by decide, by decide, by decide, by decide, by decide⟩

/-- C10 amended: the `func_arg` and `func_def_arg` templates coincide between
the repr and str formatter tables, so the rendered parameter lines coincide for
every parameter whose default or bound value has equal precise and display
renderings (in particular for parameters without values and for numeric, bool
or None defaults); a string-valued default breaks the coincidence, as the
counterexample shows. -/
theorem claim_C10_amended :
    (∀ (i : Nat) (k : String), cReprFuncArgFmt i k = cStrFuncArgFmt i k)
    ∧ (∀ (i : Nat) (k v' : String), cReprFuncDefArgFmt i k v' = cStrFuncDefArgFmt i k v')
    ∧ (∀ (i : Nat) (p : PParam), (∀ v, p.2.2.2 = some v → reprPy v = strPy v) →
        paramFrag .precise i p = paramFrag .display i p)
    ∧ (∀ (i : Nat) (ps : List PParam),
        (∀ p ∈ ps, ∀ v, p.2.2.2 = some v → reprPy v = strPy v) →
        paramsFrag .precise i ps = paramsFrag .display i ps) :=
  ⟨fun _ _ => rfl, fun _ _ _ => rfl, paramFrag_agree, paramsFrag_agree⟩

/-- C10 amended witness: a parameter list with an int default, an annotation
and a variadic marker renders identically in both modes. -/
theorem claim_C10_amended_witness :
    paramsFrag .precise 4 [(0, "a", some "int", some (.pint 1)), (1, "args", none, none)] =
      paramsFrag .display 4 [(0, "a", some "int", some (.pint 1)), (1, "args", none, none)] := by
  refine claim_C10_amended.2.2.2 4 _ ?_
  intro p hp v hv
  rcases List.mem_cons.mp hp with rfl | hp2
  · have hv' : PyVal.pint 1 = v := Option.some.inj hv
    rw [← hv']
    decide
  · rcases List.mem_cons.mp hp2 with rfl | hp3
    · exact absurd hv (by simp)
    · simp at hp3

/-- C3 counterexample: the claim's words say the key column is right-aligned,
but the template `{key!r:{size}}` left-aligns: at `{1:1, 2:2, 33:33}` the code
produces the line `    1 : 1,` (key text then padding) while right alignment
would produce `     1: 1,`; the two renderings of the whole dict differ. -/
theorem claim_C3_counterexample :
    prettyRepr (.pdict [(.pint 1, .pint 1), (.pint 2, .pint 2), (.pint 33, .pint 33)]) =
      "\x7b\n    1 : 1,\n    2 : 2,\n    33: 33,\n\x7d"
    ∧ cReprDictFmt 4 2 (.pint 1) "1" = "\n    1 : 1,"
    ∧ cReprDictFmtRightAligned 4 2 (.pint 1) "1" = "\n     1: 1,"
    ∧ ("\x7b" ++ joinStr ([((.pint 1 : PyVal), "1"), (.pint 2, "2"), (.pint 33, "33")].map
        (fun kv => cReprDictFmtRightAligned 4 2 kv.1 kv.2)) ++ "\n\x7d")
        = "\x7b\n     1: 1,\n     2: 2,\n    33: 33,\n\x7d"
    ∧ ("\x7b\n    1 : 1,\n    2 : 2,\n    33: 33,\n\x7d" : String) ≠
        "\x7b\n     1: 1,\n     2: 2,\n    33: 33,\n\x7d" := by
  exact ⟨by decide, by decide, by decide, by decide, by decide⟩

/-- C3 amended: each entry of a non-empty mapping below the cutoff renders as
one line `<indent+4><key padded LEFT-aligned to the widest key text>: <value>,`
— the key text is followed by spaces up to the maximum key-text width at that
level (not right-aligned), and every padded key occupies exactly that width. -/
theorem claim_C3_amended : ∀ (mode : Mode) (maxI : Nat) (es : List (PyVal × PyVal)) (i : Nat),
    es ≠ [] → i < maxI →
    processElement mode maxI (.pdict es) i false =
      spc i ++ "\x7b" ++ joinStr (es.map (fun kv =>
        "\n" ++ spc (i + 4) ++ padKey (keyText mode kv.1) (dictKeyWidth mode es) ++ ": " ++
          processElement mode maxI kv.2 (i + 8) true ++ ",")) ++ "\n" ++ spc i ++ "\x7d"
    ∧ (∀ kv ∈ es, (keyText mode kv.1).length ≤ dictKeyWidth mode es
        ∧ (padKey (keyText mode kv.1) (dictKeyWidth mode es)).length = dictKeyWidth mode es
        ∧ padKey (keyText mode kv.1) (dictKeyWidth mode es) =
            keyText mode kv.1 ++ spc (dictKeyWidth mode es - (keyText mode kv.1).length)) := by
  intro mode maxI es i hne hlt
  constructor
  · rw [pe_dict_multiline mode maxI es i false hne hlt]
    have hmap : es.map (fun kv => dictEntryFmt mode (i + 4) (dictKeyWidth mode es) kv.1
        (processElement mode maxI kv.2 (i + 8) true)) =
        es.map (fun kv => "\n" ++ spc (i + 4) ++
          padKey (keyText mode kv.1) (dictKeyWidth mode es) ++ ": " ++
          processElement mode maxI kv.2 (i + 8) true ++ ",") :=
      List.map_congr_left (fun kv _ => dictEntryFmt_eq mode (i + 4) _ kv.1 _)
    rw [hmap]
    simp only [Bool.false_eq_true, if_false]
  · intro kv hkv
    have hmem : (keyText mode kv.1).length ∈
        es.map (fun kv => (keyText mode kv.1).length) :=
      List.mem_map_of_mem _ hkv
    have hle : (keyText mode kv.1).length ≤ dictKeyWidth mode es :=
      le_foldr_max _ _ hmem
    exact ⟨hle, padKey_length _ _ hle, rfl⟩

/-- C3 amended witness: the padded-key rendering evaluated at the dict of
`test_004_dict`, via the amended theorem. -/
theorem claim_C3_amended_witness :
    prettyRepr (.pdict [(.pint 1, .pint 1), (.pint 2, .pint 2), (.pint 33, .pint 33)]) =
      "\x7b\n    1 : 1,\n    2 : 2,\n    33: 33,\n\x7d" := by
  have h := (claim_C3_amended .precise 20
    [(.pint 1, .pint 1), (.pint 2, .pint 2), (.pint 33, .pint 33)] 0
    (List.cons_ne_nil _ _) (by decide)).1
  show processElement .precise 20
    (.pdict [(.pint 1, .pint 1), (.pint 2, .pint 2), (.pint 33, .pint 33)]) 0 false = _
  rw [h]
  decide

theorem prettyRepr_list_eq (xs : List PyVal) (hne : xs ≠ []) :
    prettyRepr (.plist xs) =
      "[" ++ joinStr (xs.map (fun x => "\n" ++ processElement .precise 20 x 4 false ++ ",")) ++
        "\n]" := by
  show processElement .precise 20 (.plist xs) 0 false = _
  rw [pe_list_multiline .precise 20 xs 0 false hne (by decide)]
  simp only [Bool.false_eq_true, if_false, spc_zero, String.empty_append, String.append_empty,
    Nat.zero_add]
  rw [String.append_assoc]
  rw [show ("\n" : String) ++ "]" = "\n]" from by decide, String.append_assoc]

theorem prettyRepr_tuple_eq (xs : List PyVal) (hne : xs ≠ []) :
    prettyRepr (.ptuple xs) =
      "(" ++ joinStr (xs.map (fun x => "\n" ++ processElement .precise 20 x 4 false ++ ",")) ++
        "\n)" := by
  show processElement .precise 20 (.ptuple xs) 0 false = _
  rw [pe_tuple_multiline .precise 20 xs 0 false hne (by decide)]
  simp only [Bool.false_eq_true, if_false, spc_zero, String.empty_append, String.append_empty,
    Nat.zero_add]
  rw [String.append_assoc]
  rw [show ("\n" : String) ++ ")" = "\n)" from by decide, String.append_assoc]

/-- C2: a non-empty list renders as the opening bracket, one line per element
at indent 4 each suffixed by a trailing comma, and the closing bracket on its
own line after the last comma — so the output starts with the type's opening
bracket, ends with `,` newline closing bracket, and (when every element
renders on a single line) has exactly `len(s)` element lines, i.e.
`len(s) + 1` newlines between `[` and `]`; the same holds for tuples with
parentheses. -/
theorem claim_C2 : ∀ xs : List PyVal, xs ≠ [] →
    (prettyRepr (.plist xs) =
      "[" ++ joinStr (xs.map (fun x => "\n" ++ processElement .precise 20 x 4 false ++ ",")) ++
        "\n]")
    ∧ (∃ t, prettyRepr (.plist xs) = "[" ++ t)
    ∧ (∃ t, prettyRepr (.plist xs) = t ++ ",\n]")
    ∧ ((∀ x ∈ xs, hasNl (processElement .precise 20 x 4 false) = false) →
        countNl (prettyRepr (.plist xs)) = xs.length + 1)
    ∧ (prettyRepr (.ptuple xs) =
      "(" ++ joinStr (xs.map (fun x => "\n" ++ processElement .precise 20 x 4 false ++ ",")) ++
        "\n)")
    ∧ (∃ t, prettyRepr (.ptuple xs) = "(" ++ t)
    ∧ (∃ t, prettyRepr (.ptuple xs) = t ++ ",\n)")
    ∧ ((∀ x ∈ xs, hasNl (processElement .precise 20 x 4 false) = false) →
        countNl (prettyRepr (.ptuple xs)) = xs.length + 1) := by
  intro xs hne
  have hl := prettyRepr_list_eq xs hne
  have ht := prettyRepr_tuple_eq xs hne
  rcases joinStr_map_ends_comma (fun x => processElement .precise 20 x 4 false) xs hne
    with ⟨J, hJ⟩
  refine ⟨hl, ⟨_, by rw [hl, String.append_assoc]⟩, ⟨"[" ++ J, ?_⟩, ?_, ht,
    ⟨_, by rw [ht, String.append_assoc]⟩, ⟨"(" ++ J, ?_⟩, ?_⟩
  · rw [hl, hJ, ← String.append_assoc, String.append_assoc ("[" ++ J) "," "\n]"]
    rw [show ("," : String) ++ "\n]" = ",\n]" from by decide]
  · intro hsingle
    rw [hl, countNl_append, countNl_append,
      countNl_joinStr_map (fun x => processElement .precise 20 x 4 false) xs hsingle]
    have h1 : countNl "[" = 0 := by decide
    have h2 : countNl "\n]" = 1 := by decide
    rw [h1, h2]
    omega
  · rw [ht, hJ, ← String.append_assoc, String.append_assoc ("(" ++ J) "," "\n)"]
    rw [show ("," : String) ++ "\n)" = ",\n)" from by decide]
  · intro hsingle
    rw [ht, countNl_append, countNl_append,
      countNl_joinStr_map (fun x => processElement .precise 20 x 4 false) xs hsingle]
    have h1 : countNl "(" = 0 := by decide
    have h2 : countNl "\n)" = 1 := by decide
    rw [h1, h2]
    omega

/-- C2 witness: the sequences of `test_003_iterable`, rendered through the
claim's equations — three element lines, trailing commas, closing bracket after
the last comma. -/
theorem claim_C2_witness :
    prettyRepr (.plist [.pint 1, .pint 2, .pint 3]) = "[\n    1,\n    2,\n    3,\n]"
    ∧ countNl (prettyRepr (.plist [.pint 1, .pint 2, .pint 3])) = 3 + 1
    ∧ prettyRepr (.ptuple [.pint 1, .pint 2, .pint 3]) = "(\n    1,\n    2,\n    3,\n)"
    ∧ countNl (prettyRepr (.ptuple [.pint 1, .pint 2, .pint 3])) = 3 + 1 := by
  have h := claim_C2 [.pint 1, .pint 2, .pint 3] (List.cons_ne_nil _ _)
  refine ⟨by decide, ?_, by decide, ?_⟩
  · exact h.2.2.2.1 (by decide)
  · exact h.2.2.2.2.2.2.2 (by decide)

/-- C4: binding a method substitutes the bound object as the implicit first
parameter's value, so pretty_repr renders that parameter as
`name=<repr of the bound object>` — not as the bare name, which is the
rendering of a value-free parameter — while every parameter gets its own line
one level (4 columns) deeper than the callable's line, with a trailing comma,
in declaration order. -/
theorem claim_C4 : ∀ (r s : String) (st : Nat) (nm : String) (an : Option String)
    (old : Option PyVal) (tl : List PParam) (ret : Option String) (obj : PyVal) (i : Nat),
    processElement .precise 20
        (.pcallable r s (bindFirst obj ((st, nm, an, old) :: tl)) ret) i false =
      cReprCallableFmt i r
        (("\n" ++ spc (i + 4) ++ (starsTxt st ++ nm ++ annTxt an) ++ "=" ++ reprPy obj ++ ",") ++
          paramsFrag .precise (i + 4) tl ++ "\n")
    ∧ paramFrag .precise (i + 4) (st, nm, an, some obj) =
        "\n" ++ spc (i + 4) ++ (starsTxt st ++ nm ++ annTxt an) ++ "=" ++ reprPy obj ++ ","
    ∧ paramFrag .precise (i + 4) (st, nm, an, none) =
        "\n" ++ spc (i + 4) ++ (starsTxt st ++ nm ++ annTxt an) ++ ","
    ∧ (∀ p ∈ tl, ∃ mid, paramFrag .precise (i + 4) p = "\n" ++ spc (i + 4) ++ mid ++ ",") := by
  intro r s st nm an old tl ret obj i
  refine ⟨rfl, rfl, rfl, ?_⟩
  intro p _
  rcases p with ⟨pst, pnm, pan, pval⟩
  cases pval with
  | none => exact ⟨argKey (pst, pnm, pan, none), rfl⟩
  | some v =>
      refine ⟨argKey (pst, pnm, pan, some v) ++ "=" ++ leafText .precise v, ?_⟩
      show "\n" ++ spc (i + 4) ++ argKey (pst, pnm, pan, some v) ++ "=" ++
        leafText .precise v ++ "," = _
      simp only [String.append_assoc]

/-- C4 witness: the bound instance method of `test_006_callable`
(`tst_instance.tst_method`) — `self` rendered with the bound instance's repr,
the remaining parameters on their own lines in declaration order. -/
theorem claim_C4_witness :
    prettyRepr (.pcallable "<bound method TstClass.tst_method>" "m"
        (bindFirst (.pobj "<TstClass instance>" "TstClass()")
          ((0, "self", none, none) ::
            [(0, "arg", none, none), (0, "darg", none, some (.pint 1)),
             (1, "positional", none, none), (2, "named", none, none)])) none) =
      "\n<<bound method TstClass.tst_method> with interface (\n    self=<TstClass instance>," ++
        "\n    arg,\n    darg=1,\n    *positional,\n    **named,\n)>" := by
  have h := (claim_C4 "<bound method TstClass.tst_method>" "m" 0 "self" none none
    [(0, "arg", none, none), (0, "darg", none, some (.pint 1)),
     (1, "positional", none, none), (2, "named", none, none)] none
    (.pobj "<TstClass instance>" "TstClass()") 0).1
  show processElement .precise 20 _ 0 false = _
  rw [h]
  decide

theorem hasNl_compactLine_pint (mode : Mode) (n : Int) :
    hasNl (compactLine mode (.pint n)) = false := by
  cases mode <;>
    · show hasNl (spc 0 ++ intRepr n) = false
      rw [hasNl_append, hasNl_spc, hasNl_intRepr]
      rfl

theorem hasNl_compactLine_intList (mode : Mode) (ns : List Int) :
    hasNl (compactLine mode (.plist (ns.map .pint))) = false := by
  show hasNl ("[" ++ joinSep "," (compactList mode (ns.map .pint)) ++ "]") = false
  rw [hasNl_append, hasNl_append, compactList_eq_map]
  have hj : hasNl (joinSep "," ((ns.map PyVal.pint).map (compactLine mode))) = false := by
    refine hasNl_joinSep "," (by decide) _ ?_
    intro t ht
    rw [List.map_map] at ht
    rcases List.mem_map.mp ht with ⟨m, _, rfl⟩
    exact hasNl_compactLine_pint mode m
  rw [hj]
  decide

theorem hasNl_compactLine_deepNest (mode : Mode) (n : Nat) :
    hasNl (compactLine mode (deepNest n)) = false := by
  induction n with
  | zero => exact hasNl_compactLine_pint mode 123
  | succ k ih =>
      show hasNl ("[" ++ joinSep "," (compactList mode [deepNest k]) ++ "]") = false
      have hsingle : joinSep "," (compactList mode [deepNest k]) =
          compactLine mode (deepNest k) := rfl
      rw [hasNl_append, hasNl_append, hsingle, ih]
      decide

set_option maxRecDepth 8000 in
/-- C1: below the cutoff a non-empty list or tuple renders its children at
exactly `indent + 4`, and every fragment's first content line sits at exactly
the requested indent (so nesting adds exactly 4 columns per level); once
`indent ≥ max_indent`, the container renders as its margin followed by the
compact single-line form, whose children are rendered at indent 0 and joined
by commas without newlines — traversal continues through every child and the
compact form of newline-free leaves (int leaves here) contains no newline.
The two closing conjuncts replay `test_007_indent`: `max_indent=10` collapses
the levels past column 8 onto one line and `max_indent=40` indents all ten
levels by 4 columns each. -/
theorem claim_C1 : ∀ (mode : Mode) (maxI : Nat) (xs : List PyVal) (i : Nat),
    (xs ≠ [] → i < maxI →
      processElement mode maxI (.plist xs) i false =
        spc i ++ "[" ++
          joinStr (xs.map (fun x => "\n" ++ processElement mode maxI x (i + 4) false ++ ",")) ++
          "\n" ++ spc i ++ "]"
      ∧ processElement mode maxI (.ptuple xs) i false =
          spc i ++ "(" ++
            joinStr (xs.map (fun x => "\n" ++ processElement mode maxI x (i + 4) false ++ ",")) ++
            "\n" ++ spc i ++ ")"
      ∧ (∀ x ∈ xs, headClean x = true →
          firstLineIndent (processElement mode maxI x (i + 4) false) = i + 4))
    ∧ (∀ v, headClean v = true → firstLineIndent (processElement mode maxI v i false) = i)
    ∧ (xs ≠ [] → maxI ≤ i →
        processElement mode maxI (.plist xs) i false = spc i ++ compactLine mode (.plist xs)
        ∧ compactLine mode (.plist xs) = "[" ++ joinSep "," (xs.map (compactLine mode)) ++ "]")
    ∧ (∀ ns : List Int, hasNl (compactLine mode (.plist (ns.map .pint))) = false)
    ∧ (∀ n, hasNl (compactLine mode (deepNest n)) = false)
    ∧ processElement .precise 10 (deepNest 10) 0 false =
        "[\n    [\n        [\n            [[[[[[[123]]]]]]],\n        ],\n    ],\n]"
    ∧ processElement .precise 40 (deepNest 10) 0 false =
        "[\n    [\n        [\n            [\n                [\n                    [\n" ++
          "                        [\n                            [\n" ++
          "                                [\n                                    [\n" ++
          "                                        123,\n                                    ]," ++
          "\n                                ],\n                            ],\n" ++
          "                        ],\n                    ],\n                ],\n" ++
          "            ],\n        ],\n    ],\n]" := by
  intro mode maxI xs i
  refine ⟨?_, ?_, ?_, hasNl_compactLine_intList mode, hasNl_compactLine_deepNest mode,
    by decide, by decide⟩
  · intro hne hlt
    refine ⟨?_, ?_, ?_⟩
    · rw [pe_list_multiline mode maxI xs i false hne hlt]
      simp only [Bool.false_eq_true, if_false]
    · rw [pe_tuple_multiline mode maxI xs i false hne hlt]
      simp only [Bool.false_eq_true, if_false]
    · intro x _ hx
      exact fli_processElement mode maxI x (i + 4) hx
  · intro v hv
    exact fli_processElement mode maxI v i hv
  · intro hne hge
    constructor
    · rw [pe_list_cutoff mode maxI xs i false hne hge]
      simp only [Bool.false_eq_true, if_false]
    · show "[" ++ joinSep "," (compactList mode xs) ++ "]" = _
      rw [compactList_eq_map]

/-- C1 witness: the indent laws applied at concrete inputs — a one-element list
below the cutoff, a child fragment's first-line indent, and the same list past
the cutoff rendered compactly. -/
theorem claim_C1_witness :
    processElement .precise 20 (.plist [.pint 5]) 0 false = "[\n    5,\n]"
    ∧ firstLineIndent (processElement .precise 20 (.pint 5) 4 false) = 4
    ∧ processElement .precise 10 (.plist [.pint 5]) 12 false = spc 12 ++ "[5]" := by
  refine ⟨?_, ?_, ?_⟩
  · have h := ((claim_C1 .precise 20 [.pint 5] 0).1 (List.cons_ne_nil _ _) (by decide)).1
    rw [h]
    decide
  · exact (claim_C1 .precise 20 [.pint 5] 4).2.1 (.pint 5) (by decide)
  · have h := ((claim_C1 .precise 10 [.pint 5] 12).2.2.1 (List.cons_ne_nil _ _) (by decide)).1
    rw [h, show compactLine .precise (.plist [.pint 5]) = "[5]" from by decide]

end Logwrap
